import Mathlib

/-!
Verification development for the interactive SQL terminal of the `bt` CLI
(`src/sql.rs`).  The Rust code is shallowly embedded: strings are lists of
`Char` with byte offsets measured through `Char.utf8Size` (a Rust `String` is
always valid UTF-8, so it is semantically a sequence of characters and a byte
offset is a position in the encoded stream), `serde_json::Value` is the
inductive `Value`, maps are association lists, and the fallible network
dispatch is an oracle function passed to the key-event handler.
-/

namespace Bt

/-- `serde_json::Value`: a dynamically typed JSON document.  Numbers are
modelled as integers (`Int`): every number appearing in the inputs the claims
exercise is integral, and serde prints integral numbers exactly as `Int`
notation does.  Objects and the rows of a response keep their fields as an
association list. -/
inductive Value where
  | null : Value
  | bool (b : Bool) : Value
  | num (n : Int) : Value
  | str (s : String) : Value
  | arr (xs : List Value) : Value
  | obj (fields : List (String × Value)) : Value

/-- Byte length of the UTF-8 encoding of a character list
(Rust `str::len`). -/
def utf8Len (s : List Char) : Nat :=
  (s.map Char.utf8Size).sum

/-- Rust `str::is_char_boundary`: `i` is 0, or the start of a character, or
the end of the string; offsets inside a character's encoding (and offsets past
the end) are not boundaries. -/
def isBoundary (s : List Char) (i : Nat) : Bool :=
  match s, i with
  | _, 0 => true
  | [], _ => false
  | c :: cs, i => if i < c.utf8Size then false else isBoundary cs (i - c.utf8Size)

/-- Split a character list at a byte offset: the longest prefix whose encoded
length is at most `n`, and the rest.  At a character boundary this is exactly
how Rust's `String::insert` / slicing divide the string (elsewhere Rust would
panic; the editor's boundary invariant keeps that unreachable). -/
def splitAtByte (n : Nat) : List Char → List Char × List Char
  | [] => ([], [])
  | c :: cs =>
    if n < c.utf8Size then ([], c :: cs)
    else
      let p := splitAtByte (n - c.utf8Size) cs
      (c :: p.1, p.2)

/-- Rust `String::insert(self, idx, ch)`: splice `ch` at byte offset `idx`. -/
def insertAtByte (s : List Char) (idx : Nat) (ch : Char) : List Char :=
  let p := splitAtByte idx s
  p.1 ++ ch :: p.2

/-- Rust `String::replace_range(lo..hi, "")`: delete the bytes in `lo..hi`. -/
def replaceRangeEmpty (s : List Char) (lo hi : Nat) : List Char :=
  let p := splitAtByte lo s
  let q := splitAtByte (hi - lo) p.2
  p.1 ++ q.2

/-- `fn prev_char_boundary(s, idx)` from `sql.rs`:
`s[..idx].char_indices().last().map(|(i, _)| i).unwrap_or(0)`, i.e. the byte
index at which the last character strictly before `idx` starts (0 when there
is none).  A character contributes such an index exactly when its start lies
below `idx`, which the recursion tracks by subtracting encoded sizes. -/
def prev_char_boundary (s : List Char) (idx : Nat) : Nat :=
  match s with
  | [] => 0
  | c :: cs =>
    if c.utf8Size < idx then c.utf8Size + prev_char_boundary cs (idx - c.utf8Size)
    else 0

/-- Helper for `next_char_boundary`: the smallest character-start index of `s`
strictly above `idx`, or `utf8Len s` when there is none. -/
def nextStart : List Char → Nat → Nat
  | [], _ => 0
  | c :: cs, idx =>
    if idx < c.utf8Size then c.utf8Size
    else c.utf8Size + nextStart cs (idx - c.utf8Size)

/-- `fn next_char_boundary(s, idx)` from `sql.rs`: `s.len()` when
`idx >= s.len()`; otherwise iterate `s[idx..].char_indices()`, skip the first
entry, and return `idx + i` of the next entry (the start of the character
following the one at `idx`), or `s.len()` when that character was the last. -/
def next_char_boundary (s : List Char) (idx : Nat) : Nat :=
  if utf8Len s ≤ idx then utf8Len s
  else nextStart s idx

/-- Whitespace trimming (`str::trim`).  Rust trims Unicode `White_Space`
characters from both ends; `Char.isWhitespace` covers the whitespace the
claims exercise. -/
def trimChars (s : List Char) : List Char :=
  ((s.dropWhile Char.isWhitespace).reverse.dropWhile Char.isWhitespace).reverse

/-- The interactive session state (`struct App` in `sql.rs`).  `input` is the
editable buffer, `cursor` a byte offset into it, `history` the submitted
queries (each a character list), `history_index` the browsing position
(`None` = not browsing). -/
structure App where
  input : List Char
  cursor : Nat
  output : String
  status : String
  history : List (List Char)
  history_index : Option Nat
  json_output : Bool

/-- `App::new`. -/
def App.new (json_output : Bool) : App :=
  { input := []
    cursor := 0
    output := ""
    status := "Enter SQL and press Enter. Ctrl+C to exit."
    history := []
    history_index := none
    json_output := json_output }

/-- `App::insert_char`. -/
def App.insert_char (a : App) (ch : Char) : App :=
  { a with
    input := insertAtByte a.input a.cursor ch
    cursor := a.cursor + ch.utf8Size
    history_index := none }

/-- `App::backspace`. -/
def App.backspace (a : App) : App :=
  if a.cursor = 0 then a
  else
    let new_cursor := prev_char_boundary a.input a.cursor
    { a with
      input := replaceRangeEmpty a.input new_cursor a.cursor
      cursor := new_cursor
      history_index := none }

/-- `App::delete` (the `Delete` key).  The guard `self.cursor >=
self.input.len()` compares the byte cursor with the byte length. -/
def App.delete (a : App) : App :=
  if utf8Len a.input ≤ a.cursor then a
  else
    let next_cursor := next_char_boundary a.input a.cursor
    { a with
      input := replaceRangeEmpty a.input a.cursor next_cursor
      history_index := none }

/-- `App::move_left`. -/
def App.move_left (a : App) : App :=
  if a.cursor = 0 then a
  else { a with cursor := prev_char_boundary a.input a.cursor }

/-- `App::move_right`. -/
def App.move_right (a : App) : App :=
  if utf8Len a.input ≤ a.cursor then a
  else { a with cursor := next_char_boundary a.input a.cursor }

/-- `App::move_home`. -/
def App.move_home (a : App) : App :=
  { a with cursor := 0 }

/-- `App::move_end`. -/
def App.move_end (a : App) : App :=
  { a with cursor := utf8Len a.input }

/-- `App::clear_input`. -/
def App.clear_input (a : App) : App :=
  { a with input := [], cursor := 0, history_index := none }

/-- `App::push_history`.  Note the early `return` on an all-whitespace query:
in that case nothing at all is mutated (in particular `history_index` keeps
its value). -/
def App.push_history (a : App) (query : List Char) : App :=
  if trimChars query = [] then a
  else
    let history' :=
      if a.history.getLast? ≠ some query then a.history ++ [query] else a.history
    { a with history := history', history_index := none }

/-- `App::history_prev`.  Rust indexes `self.history[next_index]`, always in
bounds in reachable states; the model totalises that lookup with `getD`. -/
def App.history_prev (a : App) : App :=
  if a.history = [] then a
  else
    let next_index :=
      match a.history_index with
      | none => a.history.length - 1
      | some 0 => 0
      | some idx => idx - 1
    let entry := a.history.getD next_index []
    { a with history_index := some next_index, input := entry, cursor := utf8Len entry }

/-- `App::history_next`.  Stepping past the newest entry resets the browsing
index and clears the input. -/
def App.history_next (a : App) : App :=
  match a.history_index with
  | none => a
  | some idx =>
    let next_index := idx + 1
    if a.history.length ≤ next_index then
      App.clear_input { a with history_index := none }
    else
      let entry := a.history.getD next_index []
      { a with history_index := some next_index, input := entry, cursor := utf8Len entry }

/-- Snap a byte offset downward to the nearest boundary of `s`
(the `while start > 0 && !is_char_boundary(start)` loop of `input_view`). -/
def snapDown (s : List Char) : Nat → Nat
  | 0 => 0
  | i + 1 => if isBoundary s (i + 1) then i + 1 else snapDown s i

/-- The `while end < len && !is_char_boundary(end)` loop of `input_view`,
with its iteration count `len - end` (each pass increments `end`, and the
loop stops at `len`) made an explicit structural argument. -/
def snapUpLoop (s : List Char) : Nat → Nat → Nat
  | 0, i => i
  | fuel + 1, i =>
    if utf8Len s ≤ i then i
    else if isBoundary s i then i
    else snapUpLoop s fuel (i + 1)

/-- Snap a byte offset upward to the nearest boundary of `s`
(the `while end < len && !is_char_boundary(end)` loop of `input_view`). -/
def snapUp (s : List Char) (i : Nat) : Nat :=
  snapUpLoop s (utf8Len s - i) i

/-- Byte slice `s[lo..hi]` of a character list. -/
def sliceBytes (s : List Char) (lo hi : Nat) : List Char :=
  (splitAtByte (hi - lo) (splitAtByte lo s).2).1

/-- `App::input_view`.  Only `area.width` of the `Rect` is used; the model
takes it directly.  `saturating_sub` is `Nat` subtraction and the final
`as u16` cast reduces the column modulo 2^16. -/
def App.input_view (a : App) (areaWidth : Nat) : List Char × Nat :=
  let available_width := areaWidth - 2
  if available_width = 0 then ([], 0)
  else
    let start := snapDown a.input (a.cursor - available_width)
    let stop := snapUp a.input (min (start + available_width) (utf8Len a.input))
    (sliceBytes a.input start stop, (a.cursor - start) % 65536)

/-! JSON serialization (the relevant behavior of `serde_json::to_string` and
`serde_json::to_string_pretty`). -/

/-- One hexadecimal digit, lowercase. -/
def hexDigit (n : Nat) : Char :=
  if n < 10 then Char.ofNat (48 + n) else Char.ofNat (87 + n)

/-- Four lowercase hexadecimal digits, as serde prints in escapes. -/
def hex4 (n : Nat) : String :=
  String.mk [hexDigit ((n / 4096) % 16), hexDigit ((n / 256) % 16),
             hexDigit ((n / 16) % 16), hexDigit (n % 16)]

/-- serde's escaping of one character inside a JSON string literal. -/
def escapeChar (c : Char) : String :=
  if c = '"' then "\\\""
  else if c = '\\' then "\\\\"
  else if c = '\n' then "\\n"
  else if c = '\r' then "\\r"
  else if c = '\t' then "\\t"
  else if c = Char.ofNat 8 then "\\b"
  else if c = Char.ofNat 12 then "\\f"
  else if c.toNat < 32 then "\\u" ++ hex4 c.toNat
  else String.mk [c]

/-- A JSON string literal with serde's escaping. -/
def jsonString (s : String) : String :=
  "\"" ++ String.join (s.data.map escapeChar) ++ "\""

mutual

/-- `serde_json::to_string`: compact serialization of a `Value`. -/
def jsonCompact : Value → String
  | .null => "null"
  | .bool true => "true"
  | .bool false => "false"
  | .num n => toString n
  | .str s => jsonString s
  | .arr xs => "[" ++ jsonCompactArr xs ++ "]"
  | .obj fs => "\x7b" ++ jsonCompactObj fs ++ "\x7d"

/-- Comma-separated compact items of a JSON array. -/
def jsonCompactArr : List Value → String
  | [] => ""
  | [x] => jsonCompact x
  | x :: y :: xs => jsonCompact x ++ "," ++ jsonCompactArr (y :: xs)

/-- Comma-separated compact `"key":value` fields of a JSON object. -/
def jsonCompactObj : List (String × Value) → String
  | [] => ""
  | [(k, v)] => jsonString k ++ ":" ++ jsonCompact v
  | (k, v) :: f :: fs => jsonString k ++ ":" ++ jsonCompact v ++ "," ++ jsonCompactObj (f :: fs)

end

/-- `n` ASCII spaces. -/
def spacesStr (n : Nat) : String :=
  String.mk (List.replicate n ' ')

mutual

/-- `serde_json::to_string_pretty`: 2-space-indented serialization, used by
`format_response` when no table can be rendered.  `ind` is the indentation of
the enclosing context. -/
def jsonPretty (ind : Nat) : Value → String
  | .null => "null"
  | .bool true => "true"
  | .bool false => "false"
  | .num n => toString n
  | .str s => jsonString s
  | .arr [] => "[]"
  | .arr (x :: xs) =>
      "[\n" ++ jsonPrettyArr (ind + 2) (x :: xs) ++ "\n" ++ spacesStr ind ++ "]"
  | .obj [] => "\x7b\x7d"
  | .obj (f :: fs) =>
      "\x7b\n" ++ jsonPrettyObj (ind + 2) (f :: fs) ++ "\n" ++ spacesStr ind ++ "\x7d"

/-- Pretty-printed items of a nonempty JSON array, one per line. -/
def jsonPrettyArr (ind : Nat) : List Value → String
  | [] => ""
  | [x] => spacesStr ind ++ jsonPretty ind x
  | x :: y :: xs =>
      spacesStr ind ++ jsonPretty ind x ++ ",\n" ++ jsonPrettyArr ind (y :: xs)

/-- Pretty-printed fields of a nonempty JSON object, one per line. -/
def jsonPrettyObj (ind : Nat) : List (String × Value) → String
  | [] => ""
  | [(k, v)] => spacesStr ind ++ jsonString k ++ ": " ++ jsonPretty ind v
  | (k, v) :: f :: fs =>
      spacesStr ind ++ jsonString k ++ ": " ++ jsonPretty ind v ++ ",\n" ++
        jsonPrettyObj ind (f :: fs)

end

/-! The response model (`struct SqlResponse` and its serde semantics). -/

/-- `struct FreshnessState`. -/
structure FreshnessState where
  last_considered_xact_id : String
  last_processed_xact_id : String

/-- `struct RealtimeState`; the Rust field `state_type` is renamed to the
JSON key `type`. -/
structure RealtimeState where
  actual_xact_id : String
  minimum_xact_id : String
  read_bytes : Nat
  state_type : String

/-- `struct SqlResponse`.  `data` is `Vec<Map<String, Value>>` (each row an
object), `extra` is the `#[serde(flatten)]` bag of unrecognized top-level
fields (a `HashMap` in Rust; its iteration order is unspecified, so theorems
only use membership in it). -/
structure SqlResponse where
  data : List (List (String × Value))
  schema : Value
  cursor : Option String
  freshness_state : Option FreshnessState
  realtime_state : Option RealtimeState
  extra : List (String × Value)

/-- `Map::get` on a JSON object's field list (first match). -/
def lookupField (fs : List (String × Value)) (key : String) : Option Value :=
  (fs.find? (fun kv => kv.1 == key)).map (fun kv => kv.2)

/-- `Value::get(key)`: field lookup, `None` on non-objects. -/
def Value.get : Value → String → Option Value
  | .obj fs, key => lookupField fs key
  | _, _ => none

/-- `Value::as_object`. -/
def Value.asObject : Value → Option (List (String × Value))
  | .obj fs => some fs
  | _ => none

/-- The five field names the `SqlResponse` struct declares; everything else
lands in `extra`. -/
def knownFields : List String :=
  ["data", "schema", "cursor", "freshness_state", "realtime_state"]

/-- serde: deserialize a JSON string. -/
def decodeString : Value → Option String
  | .str s => some s
  | _ => none

/-- serde: deserialize a `u64` (an integral JSON number in `[0, 2^64)`). -/
def decodeU64 : Value → Option Nat
  | .num n => if 0 ≤ n ∧ n < (2 : Int) ^ 64 then some n.toNat else none
  | _ => none

/-- serde: deserialize `FreshnessState` (unknown fields ignored, both named
fields required). -/
def decodeFreshnessState (v : Value) : Option FreshnessState :=
  match v with
  | .obj fs => do
      let a ← (lookupField fs "last_considered_xact_id").bind decodeString
      let b ← (lookupField fs "last_processed_xact_id").bind decodeString
      some ⟨a, b⟩
  | _ => none

/-- serde: deserialize `RealtimeState` (field `type` mapped to
`state_type`). -/
def decodeRealtimeState (v : Value) : Option RealtimeState :=
  match v with
  | .obj fs => do
      let a ← (lookupField fs "actual_xact_id").bind decodeString
      let b ← (lookupField fs "minimum_xact_id").bind decodeString
      let r ← (lookupField fs "read_bytes").bind decodeU64
      let t ← (lookupField fs "type").bind decodeString
      some ⟨a, b, r, t⟩
  | _ => none

/-- serde: an `Option<T>` field with `#[serde(default)]`: missing or `null`
gives `None`, anything else must decode as `T`. -/
def decodeOptField (fs : List (String × Value)) (name : String)
    (dec : Value → Option α) : Option (Option α) :=
  match lookupField fs name with
  | none => some none
  | some .null => some none
  | some v => (dec v).map some

/-- serde: one row of `data` must be a JSON object. -/
def decodeRow : Value → Option (List (String × Value))
  | .obj fs => some fs
  | _ => none

/-- serde: the `data` field must be an array of objects. -/
def decodeData : Value → Option (List (List (String × Value)))
  | .arr xs => xs.mapM decodeRow
  | _ => none

/-- serde: `SqlResponse::deserialize`.  The named fields are matched by key
(`data` and `schema` required, the rest defaulting), every other top-level
field is captured verbatim by the flattened `extra` map. -/
def decodeSqlResponse : Value → Option SqlResponse
  | .obj fs => do
      let dataV ← lookupField fs "data"
      let dataRows ← decodeData dataV
      let schemaV ← lookupField fs "schema"
      let cursorV ← decodeOptField fs "cursor" decodeString
      let freshV ← decodeOptField fs "freshness_state" decodeFreshnessState
      let rtV ← decodeOptField fs "realtime_state" decodeRealtimeState
      some { data := dataRows
             schema := schemaV
             cursor := cursorV
             freshness_state := freshV
             realtime_state := rtV
             extra := fs.filter (fun kv => !(knownFields.contains kv.1)) }
  | _ => none

/-- serde: `FreshnessState::serialize`. -/
def encodeFreshnessState (f : FreshnessState) : Value :=
  .obj [("last_considered_xact_id", .str f.last_considered_xact_id),
        ("last_processed_xact_id", .str f.last_processed_xact_id)]

/-- serde: `RealtimeState::serialize`. -/
def encodeRealtimeState (r : RealtimeState) : Value :=
  .obj [("actual_xact_id", .str r.actual_xact_id),
        ("minimum_xact_id", .str r.minimum_xact_id),
        ("read_bytes", .num (Int.ofNat r.read_bytes)),
        ("type", .str r.state_type)]

/-- serde: serialize an `Option<T>` as `null` or the value. -/
def encodeOpt (enc : α → Value) : Option α → Value
  | none => .null
  | some x => enc x

/-- serde: the top-level fields `SqlResponse::serialize` emits — the five
declared fields in declaration order, then the flattened `extra` fields. -/
def encodeSqlResponseFields (r : SqlResponse) : List (String × Value) :=
  [("data", .arr (r.data.map Value.obj)),
   ("schema", r.schema),
   ("cursor", encodeOpt Value.str r.cursor),
   ("freshness_state", encodeOpt encodeFreshnessState r.freshness_state),
   ("realtime_state", encodeOpt encodeRealtimeState r.realtime_state)] ++ r.extra

/-- serde: `SqlResponse::serialize`. -/
def encodeSqlResponse (r : SqlResponse) : Value :=
  .obj (encodeSqlResponseFields r)

/-! The table renderer. -/

/-- Model of the `unicode-width` crate's per-character display width
(`UnicodeWidthChar::width(c).unwrap_or(0)` as summed by
`UnicodeWidthStr::width`): control characters count 0, East-Asian
Wide/Fullwidth ranges count 2, everything else 1.  The table lists the main
wide ranges; ambiguous-width characters (such as `é`) are narrow, as in the
crate's non-CJK default. -/
def charWidth (c : Char) : Nat :=
  let v := c.toNat
  if v < 0x20 then 0
  else if v < 0x7F then 1
  else if v < 0xA0 then 0
  else if (0x1100 ≤ v ∧ v ≤ 0x115F) ∨ (0x2E80 ≤ v ∧ v ≤ 0x303E) ∨
      (0x3041 ≤ v ∧ v ≤ 0x33FF) ∨ (0x3400 ≤ v ∧ v ≤ 0x4DBF) ∨
      (0x4E00 ≤ v ∧ v ≤ 0x9FFF) ∨ (0xA000 ≤ v ∧ v ≤ 0xA4CF) ∨
      (0xAC00 ≤ v ∧ v ≤ 0xD7A3) ∨ (0xF900 ≤ v ∧ v ≤ 0xFAFF) ∨
      (0xFE30 ≤ v ∧ v ≤ 0xFE4F) ∨ (0xFF00 ≤ v ∧ v ≤ 0xFF60) ∨
      (0xFFE0 ≤ v ∧ v ≤ 0xFFE6) ∨ (0x20000 ≤ v ∧ v ≤ 0x3FFFD)
  then 2 else 1

/-- `UnicodeWidthStr::width`: display width of a string in terminal
columns. -/
def strWidth (s : String) : Nat :=
  (s.data.map charWidth).sum

/-- `fn extract_headers`: the keys of `schema.items.properties` when that
shape is present, `[]` otherwise. -/
def extract_headers (schema : Value) : List String :=
  let items := (schema.get "items").bind Value.asObject
  let properties :=
    (items.bind (fun i => lookupField i "properties")).bind Value.asObject
  (properties.map (fun props => props.map Prod.fst)).getD []

/-- `fn format_cell`: a missing field is empty, strings pass through
unescaped, everything else uses its serde text form (`Value::to_string`,
which for arrays/objects is the compact JSON encoding). -/
def format_cell : Option Value → String
  | none => ""
  | some (Value.str s) => s
  | some v => jsonCompact v

/-- The width-accumulation step of `fn build_table`'s row loop: widen each
column to the row's cell where the cell is wider.  (Rust writes
`widths[idx] = width` under `width > widths[idx]`, a pointwise `max`; a row
longer than `widths` would panic there — `render_table` always produces rows
of the headers' length.) -/
def updateWidths : List Nat → List String → List Nat
  | [], _ => []
  | ws, [] => ws
  | w :: ws, cell :: cs => max w (strWidth cell) :: updateWidths ws cs

/-- The `widths` vector of `fn build_table`: header widths, folded over every
row. -/
def computeWidths (headers : List String) (rows : List (List String)) : List Nat :=
  rows.foldl updateWidths (headers.map strWidth)

/-- `fn pad_cell`: right-pad with ASCII spaces up to `width` display columns;
cells at least `width` wide are returned unchanged. -/
def pad_cell (cell : String) (width : Nat) : String :=
  if width ≤ strWidth cell then cell
  else cell ++ String.mk (List.replicate (width - strWidth cell) ' ')

/-- `fn build_separator`: `+` followed by `width + 2` dashes and `+` per
column. -/
def build_separator (widths : List Nat) : String :=
  widths.foldl (fun line w => line ++ String.mk (List.replicate (w + 2) '-') ++ "+") "+"

/-- `fn build_row`: `|` then ` cell |` per column, cells padded. -/
def build_row (cells : List String) (widths : List Nat) : String :=
  (cells.zip widths).foldl
    (fun line cw => line ++ " " ++ pad_cell cw.1 cw.2 ++ " " ++ "|") "|"

/-- `fn build_table`: separator, header row, separator, data rows, separator,
joined by newlines. -/
def build_table (headers : List String) (rows : List (List String)) : String :=
  let widths := computeWidths headers rows
  let separator := build_separator widths
  let head_part := separator ++ "\n" ++ build_row headers widths ++ "\n" ++ separator
  let body := rows.foldl (fun out row => out ++ "\n" ++ build_row row widths) head_part
  body ++ "\n" ++ separator

/-- `fn render_table`: headers from the schema, else from the first row's
keys; with no headers, `(no rows)` for an empty response and `None` (caller
falls back to JSON) otherwise; else the bordered table. -/
def render_table (r : SqlResponse) : Option String :=
  let headers0 := extract_headers r.schema
  let headers :=
    if headers0.isEmpty then
      match r.data.head? with
      | some first_row => first_row.map Prod.fst
      | none => headers0
    else headers0
  if headers.isEmpty then
    if r.data.isEmpty then some "(no rows)" else none
  else
    let rows := r.data.map (fun row => headers.map (fun h => format_cell (lookupField row h)))
    some (build_table headers rows)

/-- `fn format_response`: raw JSON in `--json` mode, else the table when one
can be rendered, else pretty-printed JSON.  (Rust returns `Result` only
because `serde_json::to_string` is typed fallibly; for this data model
serialization is total.) -/
def format_response (r : SqlResponse) (json_output : Bool) : String :=
  if json_output then jsonCompact (encodeSqlResponse r)
  else
    match render_table r with
    | some table => table
    | none => jsonPretty 0 (encodeSqlResponse r)

/-! The key-event handler. -/

/-- The key codes the handler distinguishes (`crossterm::event::KeyCode`). -/
inductive KeyCode where
  | char (c : Char) : KeyCode
  | enter : KeyCode
  | esc : KeyCode
  | backspace : KeyCode
  | delete : KeyCode
  | left : KeyCode
  | right : KeyCode
  | home : KeyCode
  | endKey : KeyCode
  | up : KeyCode
  | down : KeyCode
  | other : KeyCode
deriving DecidableEq

/-- A key event: code plus the CONTROL / ALT modifier bits the handler
inspects. -/
structure KeyEvent where
  code : KeyCode
  ctrl : Bool
  alt : Bool

/-- The outcome of `execute_query` as observed by the handler
(`anyhow::Result<SqlResponse>`; the error shown is the `Display` text). -/
inductive QueryResult where
  | ok (response : SqlResponse) : QueryResult
  | err (e : String) : QueryResult

/-- `fn handle_key_event`.  The blocking dispatch
`handle.block_on(execute_query(client, &query))` is abstracted as the oracle
`dispatch`; the returned `Bool` is Rust's `Ok(true)` = "break the event
loop". -/
def handle_key_event (a : App) (key : KeyEvent)
    (dispatch : List Char → QueryResult) : App × Bool :=
  if key.code = .char 'c' ∧ key.ctrl then
    ({ a.clear_input with status := "Cleared input" }, false)
  else if key.code = .char 'd' ∧ key.ctrl then (a, true)
  else if key.code = .esc then (a, true)
  else if key.code = .char 'l' ∧ key.ctrl then ({ a with output := "" }, false)
  else
    match key.code with
    | .enter =>
      let query := trimChars a.input
      if query = [] then (a, false)
      else
        let a1 := { a with status := "Running query..." }
        let a2 :=
          match dispatch query with
          | .ok response =>
              { a1 with output := format_response response a1.json_output
                        status := "OK" }
          | .err e =>
              { a1 with output := "Error: " ++ e, status := "Error" }
        ((a2.push_history query).clear_input, false)
    | .backspace => (a.backspace, false)
    | .delete => (a.delete, false)
    | .left => (a.move_left, false)
    | .right => (a.move_right, false)
    | .home => (a.move_home, false)
    | .endKey => (a.move_end, false)
    | .up => (a.history_prev, false)
    | .down => (a.history_next, false)
    | .char ch => if !key.ctrl ∧ !key.alt then (a.insert_char ch, false) else (a, false)
    | _ => (a, false)

/-- The editor operations named by the cursor-boundary claim, as a syntax of
events that can be replayed against an `App`. -/
inductive EditorOp where
  | insertChar (c : Char) : EditorOp
  | backspace : EditorOp
  | delete : EditorOp
  | moveLeft : EditorOp
  | moveRight : EditorOp
  | moveHome : EditorOp
  | moveEnd : EditorOp
  | clearInput : EditorOp
  | historyPrev : EditorOp
  | historyNext : EditorOp
  | pushHistory (q : List Char) : EditorOp

/-- Interpret one editor operation on the session state. -/
def applyOp (a : App) : EditorOp → App
  | .insertChar c => a.insert_char c
  | .backspace => a.backspace
  | .delete => a.delete
  | .moveLeft => a.move_left
  | .moveRight => a.move_right
  | .moveHome => a.move_home
  | .moveEnd => a.move_end
  | .clearInput => a.clear_input
  | .historyPrev => a.history_prev
  | .historyNext => a.history_next
  | .pushHistory q => a.push_history q

end Bt

namespace Bt

@[simp]
theorem utf8Len_nil : utf8Len [] = 0 := rfl

@[simp]
theorem utf8Len_cons (c : Char) (cs : List Char) :
    utf8Len (c :: cs) = c.utf8Size + utf8Len cs := by
  simp [utf8Len]

@[simp]
theorem utf8Len_append (s t : List Char) :
    utf8Len (s ++ t) = utf8Len s + utf8Len t := by
  simp [utf8Len]

@[simp]
theorem isBoundary_zero (s : List Char) : isBoundary s 0 = true := by
  cases s <;> rfl

/-- A byte offset is a boundary exactly when the character list splits there:
Rust's `is_char_boundary` holds iff some prefix of characters encodes to
exactly `i` bytes. -/
theorem isBoundary_iff (s : List Char) (i : Nat) :
    isBoundary s i = true ↔ ∃ pre post, s = pre ++ post ∧ utf8Len pre = i := by
  induction s generalizing i with
  | nil =>
    cases i with
    | zero =>
      constructor
      · intro _; exact ⟨[], [], rfl, rfl⟩
      · intro _; rfl
    | succ n =>
      constructor
      · intro h; simp [isBoundary] at h
      · rintro ⟨pre, post, hs, hl⟩
        have hpre : pre = [] := by
          cases pre with
          | nil => rfl
          | cons a as => simp at hs
        subst hpre
        simp at hl
  | cons c cs ih =>
    cases i with
    | zero =>
      constructor
      · intro _; exact ⟨[], c :: cs, rfl, rfl⟩
      · intro _; exact isBoundary_zero _
    | succ n =>
      have hunfold : isBoundary (c :: cs) (n + 1) =
          if n + 1 < c.utf8Size then false else isBoundary cs (n + 1 - c.utf8Size) := rfl
      by_cases hlt : n + 1 < c.utf8Size
      · rw [hunfold, if_pos hlt]
        constructor
        · intro h; exact absurd h (by simp)
        · rintro ⟨pre, post, hs, hl⟩
          cases pre with
          | nil => simp at hl
          | cons d pre' =>
            have hd : c = d := by simpa using congrArg List.head? hs
            subst hd
            have : c.utf8Size ≤ n + 1 := by
              rw [← hl]; simp [utf8Len_cons]
            omega
      · rw [hunfold, if_neg hlt]
        rw [ih]
        constructor
        · rintro ⟨pre', post, hs, hl⟩
          refine ⟨c :: pre', post, by simp [hs], ?_⟩
          simp [utf8Len_cons, hl]
          omega
        · rintro ⟨pre, post, hs, hl⟩
          cases pre with
          | nil => simp at hl
          | cons d pre' =>
            have hd : c = d := by simpa using congrArg List.head? hs
            subst hd
            have htl : cs = pre' ++ post := by simpa using congrArg List.tail hs
            refine ⟨pre', post, htl, ?_⟩
            simp [utf8Len_cons] at hl
            omega

/-- Boundaries never lie past the end of the buffer. -/
theorem boundary_le {s : List Char} {i : Nat} (h : isBoundary s i = true) :
    i ≤ utf8Len s := by
  rcases (isBoundary_iff s i).mp h with ⟨pre, post, rfl, rfl⟩
  simp

@[simp]
theorem isBoundary_utf8Len (s : List Char) : isBoundary s (utf8Len s) = true :=
  (isBoundary_iff s (utf8Len s)).mpr ⟨s, [], by simp, rfl⟩

/-- Splitting at the encoded length of a prefix recovers the prefix and the
rest. -/
theorem splitAtByte_append (pre post : List Char) :
    splitAtByte (utf8Len pre) (pre ++ post) = (pre, post) := by
  induction pre with
  | nil =>
    cases post with
    | nil => rfl
    | cons c cs =>
      simp [splitAtByte, Char.utf8Size_pos]
  | cons c pre' ih =>
    have hnot : ¬ (utf8Len (c :: pre') < c.utf8Size) := by
      simp [utf8Len_cons]
    have harg : utf8Len (c :: pre') - c.utf8Size = utf8Len pre' := by
      simp [utf8Len_cons]
    simp only [List.cons_append, splitAtByte, if_neg hnot, List.append_eq, harg, ih]

theorem splitAtByte_size_cons (c : Char) (post : List Char) :
    splitAtByte c.utf8Size (c :: post) = ([c], post) := by
  have h := splitAtByte_append [c] post
  simpa using h

/-- `prev_char_boundary` at the end of a prefix steps back over exactly the
prefix's last character. -/
theorem prev_char_boundary_spec (pre : List Char) (c : Char) (post : List Char) :
    prev_char_boundary (pre ++ c :: post) (utf8Len pre + c.utf8Size) = utf8Len pre := by
  induction pre with
  | nil =>
    simp [prev_char_boundary]
  | cons d rest ih =>
    have h1 : d.utf8Size < utf8Len (d :: rest) + c.utf8Size := by
      have := Char.utf8Size_pos c
      rw [utf8Len_cons]
      omega
    have h2 : utf8Len (d :: rest) + c.utf8Size - d.utf8Size = utf8Len rest + c.utf8Size := by
      rw [utf8Len_cons]
      omega
    rw [List.cons_append]
    rw [show prev_char_boundary (d :: (rest ++ c :: post)) (utf8Len (d :: rest) + c.utf8Size) =
        if d.utf8Size < utf8Len (d :: rest) + c.utf8Size then
          d.utf8Size +
            prev_char_boundary (rest ++ c :: post) (utf8Len (d :: rest) + c.utf8Size - d.utf8Size)
        else 0 from rfl]
    rw [if_pos h1, h2, ih, utf8Len_cons]

theorem nextStart_spec (pre : List Char) (c : Char) (post : List Char) :
    nextStart (pre ++ c :: post) (utf8Len pre) = utf8Len pre + c.utf8Size := by
  induction pre with
  | nil =>
    simp [nextStart, Char.utf8Size_pos]
  | cons d rest ih =>
    have hnot : ¬ (utf8Len (d :: rest) < d.utf8Size) := by
      rw [utf8Len_cons]
      omega
    have harg : utf8Len (d :: rest) - d.utf8Size = utf8Len rest := by
      rw [utf8Len_cons]
      omega
    rw [List.cons_append]
    rw [show nextStart (d :: (rest ++ c :: post)) (utf8Len (d :: rest)) =
        if utf8Len (d :: rest) < d.utf8Size then d.utf8Size
        else d.utf8Size + nextStart (rest ++ c :: post) (utf8Len (d :: rest) - d.utf8Size)
        from rfl]
    rw [if_neg hnot, harg, ih, utf8Len_cons]
    omega

/-- `next_char_boundary` at the start of a character steps forward over
exactly that character. -/
theorem next_char_boundary_spec (pre : List Char) (c : Char) (post : List Char) :
    next_char_boundary (pre ++ c :: post) (utf8Len pre) =
      utf8Len pre + c.utf8Size := by
  have hlen : ¬ (utf8Len (pre ++ c :: post) ≤ utf8Len pre) := by
    have := Char.utf8Size_pos c
    simp [utf8Len_cons]
    omega
  unfold next_char_boundary
  rw [if_neg hlen, nextStart_spec]

/-- Inserting a character at a boundary leaves the advanced cursor on a
boundary. -/
theorem boundary_insert {s : List Char} {i : Nat} (ch : Char)
    (h : isBoundary s i = true) :
    isBoundary (insertAtByte s i ch) (i + ch.utf8Size) = true := by
  rcases (isBoundary_iff s i).mp h with ⟨pre, post, rfl, rfl⟩
  unfold insertAtByte
  rw [splitAtByte_append]
  exact (isBoundary_iff _ _).mpr ⟨pre ++ [ch], post, by simp, by simp⟩

/-- Deleting the byte range of one character between two boundaries removes
exactly that character. -/
theorem replaceRangeEmpty_spec (pre : List Char) (c : Char) (post : List Char) :
    replaceRangeEmpty (pre ++ c :: post) (utf8Len pre) (utf8Len pre + c.utf8Size) =
      pre ++ post := by
  have h1 : splitAtByte (utf8Len pre) (pre ++ c :: post) = (pre, c :: post) :=
    splitAtByte_append pre (c :: post)
  have harg : utf8Len pre + c.utf8Size - utf8Len pre = c.utf8Size := by omega
  simp [replaceRangeEmpty, h1, harg, splitAtByte_size_cons]

/-- Removing the character before a nonzero boundary cursor leaves the moved
cursor on a boundary of the shortened buffer. -/
theorem boundary_backspace {s : List Char} {i : Nat}
    (h : isBoundary s i = true) (hne : i ≠ 0) :
    isBoundary (replaceRangeEmpty s (prev_char_boundary s i) i)
      (prev_char_boundary s i) = true := by
  rcases (isBoundary_iff s i).mp h with ⟨pre, post, rfl, rfl⟩
  rcases List.eq_nil_or_concat pre with rfl | ⟨pre', c, rfl⟩
  · simp at hne
  · have hs : pre'.concat c ++ post = pre' ++ c :: post := by simp
    have hl : utf8Len (pre'.concat c) = utf8Len pre' + c.utf8Size := by simp
    rw [hs, hl, prev_char_boundary_spec, replaceRangeEmpty_spec]
    exact (isBoundary_iff _ _).mpr ⟨pre', post, rfl, rfl⟩

/-- Deleting the character after a boundary cursor (strictly inside the
buffer) keeps the cursor on a boundary of the shortened buffer. -/
theorem boundary_delete {s : List Char} {i : Nat}
    (h : isBoundary s i = true) (hlt : i < utf8Len s) :
    isBoundary (replaceRangeEmpty s i (next_char_boundary s i)) i = true := by
  rcases (isBoundary_iff s i).mp h with ⟨pre, post, rfl, rfl⟩
  cases post with
  | nil => simp at hlt
  | cons c post' =>
    rw [next_char_boundary_spec, replaceRangeEmpty_spec]
    exact (isBoundary_iff _ _).mpr ⟨pre, post', rfl, rfl⟩

/-- Moving left from a nonzero boundary lands on a boundary. -/
theorem boundary_prev {s : List Char} {i : Nat}
    (h : isBoundary s i = true) (hne : i ≠ 0) :
    isBoundary s (prev_char_boundary s i) = true := by
  rcases (isBoundary_iff s i).mp h with ⟨pre, post, rfl, rfl⟩
  rcases List.eq_nil_or_concat pre with rfl | ⟨pre', c, rfl⟩
  · simp at hne
  · have hs : pre'.concat c ++ post = pre' ++ c :: post := by simp
    have hl : utf8Len (pre'.concat c) = utf8Len pre' + c.utf8Size := by simp
    rw [hs, hl, prev_char_boundary_spec]
    exact (isBoundary_iff _ _).mpr ⟨pre', c :: post, rfl, rfl⟩

/-- Moving right from a boundary strictly inside the buffer lands on a
boundary. -/
theorem boundary_next {s : List Char} {i : Nat}
    (h : isBoundary s i = true) (hlt : i < utf8Len s) :
    isBoundary s (next_char_boundary s i) = true := by
  rcases (isBoundary_iff s i).mp h with ⟨pre, post, rfl, rfl⟩
  cases post with
  | nil => simp at hlt
  | cons c post' =>
    rw [next_char_boundary_spec]
    exact (isBoundary_iff _ _).mpr ⟨pre ++ [c], post', by simp, by simp⟩

/-- Every single editor operation preserves the cursor-on-boundary
invariant. -/
theorem applyOp_boundary {a : App} (op : EditorOp)
    (h : isBoundary a.input a.cursor = true) :
    isBoundary (applyOp a op).input (applyOp a op).cursor = true := by
  cases op with
  | insertChar c =>
    simpa [applyOp, App.insert_char] using boundary_insert c h
  | backspace =>
    by_cases h0 : a.cursor = 0
    · simp [applyOp, App.backspace, h0, h]
    · simpa [applyOp, App.backspace, h0] using boundary_backspace h h0
  | delete =>
    by_cases hge : utf8Len a.input ≤ a.cursor
    · simpa [applyOp, App.delete, hge] using h
    · simpa [applyOp, App.delete, hge] using boundary_delete h (by omega)
  | moveLeft =>
    by_cases h0 : a.cursor = 0
    · simp [applyOp, App.move_left, h0, h]
    · simpa [applyOp, App.move_left, h0] using boundary_prev h h0
  | moveRight =>
    by_cases hge : utf8Len a.input ≤ a.cursor
    · simpa [applyOp, App.move_right, hge] using h
    · simpa [applyOp, App.move_right, hge] using boundary_next h (by omega)
  | moveHome =>
    simp [applyOp, App.move_home]
  | moveEnd =>
    simp [applyOp, App.move_end]
  | clearInput =>
    simp [applyOp, App.clear_input]
  | historyPrev =>
    by_cases he : a.history = []
    · simpa [applyOp, App.history_prev, he] using h
    · simp [applyOp, App.history_prev, he]
  | historyNext =>
    cases hidx : a.history_index with
    | none => simpa [applyOp, App.history_next, hidx] using h
    | some idx =>
      by_cases hlen : a.history.length ≤ idx + 1
      · simp [applyOp, App.history_next, hidx, hlen, App.clear_input]
      · simp [applyOp, App.history_next, hidx, hlen]
  | pushHistory q =>
    by_cases ht : trimChars q = []
    · simp [applyOp, App.push_history, ht, h]
    · simp [applyOp, App.push_history, ht, h]

/-- Claim C1: replaying any sequence of editor operations (insert_char,
backspace, delete, move_left, move_right, move_home, move_end, clear_input,
history_prev, history_next, push_history) from the empty initial state leaves
the cursor on a UTF-8 character boundary of the buffer, and in particular
within `0 ≤ cursor ≤ buffer length`.  Since every prefix of a sequence is
itself a sequence, this holds after each operation. -/
theorem C1_cursor_always_on_boundary (b : Bool) (ops : List EditorOp) :
    isBoundary ((ops.foldl applyOp (App.new b)).input)
        ((ops.foldl applyOp (App.new b)).cursor) = true
    ∧ (ops.foldl applyOp (App.new b)).cursor ≤
        utf8Len ((ops.foldl applyOp (App.new b)).input) := by
  have main : ∀ (ops' : List EditorOp) (a : App),
      isBoundary a.input a.cursor = true →
      isBoundary ((ops'.foldl applyOp a).input) ((ops'.foldl applyOp a).cursor) = true := by
    intro ops'
    induction ops' with
    | nil => intro a h; exact h
    | cons op rest ih =>
      intro a h
      exact ih _ (applyOp_boundary op h)
  have h := main ops (App.new b) (by simp [App.new])
  exact ⟨h, boundary_le h⟩

end Bt

namespace Bt

/-- Membership in `dropWhile` is kept for elements failing the predicate. -/
theorem mem_dropWhile_of_not {p : Char → Bool} {c : Char} {l : List Char}
    (h : c ∈ l) (hp : p c = false) : c ∈ l.dropWhile p := by
  induction l with
  | nil => cases h
  | cons a as ih =>
    by_cases ha : p a = true
    · rw [List.dropWhile_cons_of_pos ha]
      rcases List.mem_cons.mp h with rfl | hmem
      · rw [hp] at ha; cases ha
      · exact ih hmem
    · rw [List.dropWhile_cons_of_neg ha]
      exact h

/-- Non-whitespace characters survive trimming. -/
theorem mem_trimChars {c : Char} {s : List Char}
    (h : c ∈ s) (hp : c.isWhitespace = false) : c ∈ trimChars s := by
  unfold trimChars
  rw [List.mem_reverse]
  exact mem_dropWhile_of_not (List.mem_reverse.mpr (mem_dropWhile_of_not h hp)) hp

/-- All-whitespace strings trim to empty. -/
theorem trimChars_eq_nil {s : List Char}
    (h : ∀ c ∈ s, c.isWhitespace = true) : trimChars s = [] := by
  unfold trimChars
  have h1 : s.dropWhile Char.isWhitespace = [] := by
    rw [List.dropWhile_eq_nil_iff]
    exact fun x hx => h x hx
  rw [h1]
  rfl

/-- Trimming is stable: a nonempty trimmed string trims to a nonempty
string (used because `push_history` re-trims the already-trimmed query that
the Enter handler passes it). -/
theorem trimChars_trimChars_ne_nil {s : List Char}
    (h : trimChars s ≠ []) : trimChars (trimChars s) ≠ [] := by
  have hex : ∃ c ∈ s, c.isWhitespace = false := by
    by_contra hall
    push_neg at hall
    exact h (trimChars_eq_nil (by
      intro c hc
      have := hall c hc
      revert this
      cases hw : c.isWhitespace <;> simp))
  rcases hex with ⟨c, hc, hw⟩
  exact List.ne_nil_of_mem (mem_trimChars (mem_trimChars hc hw) hw)

/-- Claim C3 counterexample: `push_history` does NOT always reset the history
browsing index.  After submitting `"a"` and browsing to it (`history_prev`),
a `push_history` call with the all-whitespace query `" "` takes the early
return and leaves `history_index` at `Some(0)`, not `None`. -/
theorem C3_counterexample :
    ((((App.new false).push_history ['a']).history_prev).push_history [' ']).history_index ≠
      none := by
  decide

/-- Claim C3 (amended): `push_history` appends the query unless it is empty
after trimming or equals the last stored entry; when the query is empty after
trimming the call leaves the entire state unchanged (in particular the
browsing index), and otherwise it resets the browsing index to
not-browsing.  Consequently pushing the same non-empty query twice from a
fresh session leaves exactly one entry, and pushing `"a"`, `"b"`, `"a"`
leaves `["a", "b", "a"]`. -/
theorem C3_push_history_amended :
    (∀ (a : App) (q : List Char), trimChars q = [] → a.push_history q = a)
    ∧ (∀ (a : App) (q : List Char), trimChars q ≠ [] →
        (a.push_history q).history_index = none
        ∧ (a.push_history q).history =
            (if a.history.getLast? = some q then a.history else a.history ++ [q]))
    ∧ (∀ q : List Char, trimChars q ≠ [] →
        (((App.new false).push_history q).push_history q).history = [q])
    ∧ ((((App.new false).push_history ['a']).push_history ['b']).push_history ['a']).history =
        [['a'], ['b'], ['a']] := by
  refine ⟨?_, ?_, ?_, by decide⟩
  · intro a q hq
    simp [App.push_history, hq]
  · intro a q hq
    refine ⟨by simp [App.push_history, hq], ?_⟩
    by_cases hl : a.history.getLast? = some q
    · simp [App.push_history, hq, hl]
    · simp [App.push_history, hq, hl]
  · intro q hq
    simp [App.push_history, App.new, hq]

/-- Witness for the amended C3 theorem at concrete inputs. -/
theorem C3_push_history_amended_witness :
    ((App.new false).push_history [' ']) = App.new false
    ∧ ((App.new true).push_history ['x']).history_index = none
    ∧ (((App.new false).push_history ['x']).push_history ['x']).history = [['x']] :=
  ⟨C3_push_history_amended.1 (App.new false) [' '] (by decide),
   (C3_push_history_amended.2.1 (App.new true) ['x'] (by decide)).1,
   C3_push_history_amended.2.2.1 ['x'] (by decide)⟩

/-- A `history_next` on a non-browsing state is the identity. -/
theorem history_next_not_browsing {a : App} (h : a.history_index = none) :
    a.history_next = a := by
  simp [App.history_next, h]

/-- Iterating `history_next` on a non-browsing state stays put. -/
theorem history_next_iterate_stable {a : App} (h : a.history_index = none) (n : Nat) :
    App.history_next^[n] a = a := by
  induction n with
  | zero => rfl
  | succ k ih => rw [Function.iterate_succ_apply, history_next_not_browsing h, ih]

/-- Iterating `history_next` enough times from any browsing position reaches
the cleared, non-browsing state. -/
theorem history_next_clears (n : Nat) :
    ∀ (a : App) (i : Nat), a.history_index = some i → a.history.length ≤ i + n → 1 ≤ n →
      (App.history_next^[n] a).history_index = none
      ∧ (App.history_next^[n] a).input = []
      ∧ (App.history_next^[n] a).cursor = 0 := by
  induction n with
  | zero =>
    intro a i _ _ h1
    omega
  | succ k ih =>
    intro a i hi hlen _
    rw [Function.iterate_succ_apply]
    by_cases hk : a.history.length ≤ i + 1
    · have hstep : a.history_next = App.clear_input { a with history_index := none } := by
        simp [App.history_next, hi, hk]
      rw [hstep, history_next_iterate_stable rfl]
      exact ⟨rfl, rfl, rfl⟩
    · have hstep : a.history_next =
          { a with history_index := some (i + 1),
                   input := a.history.getD (i + 1) []
                   cursor := utf8Len (a.history.getD (i + 1) []) } := by
        simp [App.history_next, hi, hk]
      rw [hstep]
      exact ih _ (i + 1) rfl (by simp; omega) (by omega)

/-- Claim C4: with a non-empty history, `history_prev` from the non-browsing
state selects the newest entry; while browsing it moves one entry older,
clamped at index 0; `history_next` while browsing moves one entry newer, and
stepping past the newest entry returns to the non-browsing state with an
empty buffer and cursor 0 — so from any browsing position some number of
`history_next` calls reaches the empty, non-browsing state.  Every selecting
transition installs the selected entry as the buffer with the cursor at its
end. -/
theorem C4_history_navigation (a : App) (h : a.history ≠ []) :
    (a.history_index = none →
      a.history_prev.history_index = some (a.history.length - 1)
      ∧ a.history_prev.input = a.history.getD (a.history.length - 1) []
      ∧ a.history_prev.cursor = utf8Len a.history_prev.input)
    ∧ (∀ i, a.history_index = some i →
      a.history_prev.history_index = some (i - 1)
      ∧ a.history_prev.input = a.history.getD (i - 1) []
      ∧ a.history_prev.cursor = utf8Len a.history_prev.input)
    ∧ (∀ i, a.history_index = some i → i + 1 < a.history.length →
      a.history_next.history_index = some (i + 1)
      ∧ a.history_next.input = a.history.getD (i + 1) []
      ∧ a.history_next.cursor = utf8Len a.history_next.input)
    ∧ (∀ i, a.history_index = some i → a.history.length ≤ i + 1 →
      a.history_next.history_index = none
      ∧ a.history_next.input = []
      ∧ a.history_next.cursor = 0)
    ∧ (∀ i, a.history_index = some i →
      ∃ n, (App.history_next^[n] a).history_index = none
        ∧ (App.history_next^[n] a).input = []
        ∧ (App.history_next^[n] a).cursor = 0) := by
  refine ⟨?_, ?_, ?_, ?_, ?_⟩
  · intro hi
    simp [App.history_prev, h, hi]
  · intro i hi
    cases i with
    | zero => simp [App.history_prev, h, hi]
    | succ j => simp [App.history_prev, h, hi]
  · intro i hi hlt
    have hk : ¬ (a.history.length ≤ i + 1) := by omega
    simp [App.history_next, hi, hk]
  · intro i hi hle
    simp [App.history_next, hi, hle, App.clear_input]
  · intro i hi
    refine ⟨a.history.length, history_next_clears a.history.length a i hi (by omega) ?_⟩
    have := List.length_pos.mpr h
    omega

/-- Witness for C4 at a concrete one-entry history. -/
theorem C4_history_navigation_witness :
    (((App.new false).push_history ['a']).history_prev).history_index = some 0
    ∧ ∃ n, (App.history_next^[n] (((App.new false).push_history ['a']).history_prev)).input =
        [] := by
  constructor
  · have h := C4_history_navigation ((App.new false).push_history ['a']) (by decide)
    simpa using (h.1 (by decide)).1
  · have h' := C4_history_navigation (((App.new false).push_history ['a']).history_prev)
      (by decide)
    obtain ⟨n, hn⟩ := h'.2.2.2.2 0 (by decide)
    exact ⟨n, hn.2.1⟩

/-- Claim C2 counterexample: a response whose schema yields no headers, whose
data is non-empty, and whose rows have heterogeneous key sets (first row has
key `a`, second row has none) does NOT make `render_table` return `None` —
the fallback takes the first row's keys as headers and renders a table. -/
theorem C2_counterexample :
    extract_headers (Value.null) = []
    ∧ (SqlResponse.data
        { data := [[("a", Value.num 1)], []], schema := Value.null, cursor := none,
          freshness_state := none, realtime_state := none, extra := [] }).length = 2
    ∧ ((SqlResponse.data
        { data := [[("a", Value.num 1)], []], schema := Value.null, cursor := none,
          freshness_state := none, realtime_state := none, extra := [] }).map
          (fun row => row.map Prod.fst)) = [["a"], []]
    ∧ render_table
        { data := [[("a", Value.num 1)], []], schema := Value.null, cursor := none,
          freshness_state := none, realtime_state := none, extra := [] } ≠ none := by
  refine ⟨rfl, rfl, rfl, ?_⟩
  decide

/-- Claim C2 (amended): when the schema yields no headers, an empty response
renders the literal `(no rows)` placeholder, and a non-empty response renders
no table (`None`) exactly when its FIRST row has no keys; otherwise the first
row's keys become headers and a table is rendered, regardless of later rows'
key sets. -/
theorem C2_render_fallback_amended (r : SqlResponse)
    (hhead : extract_headers r.schema = []) :
    (r.data = [] → render_table r = some "(no rows)")
    ∧ (∀ row rest, r.data = row :: rest → (render_table r = none ↔ row = [])) := by
  constructor
  · intro hdata
    simp [render_table, hhead, hdata]
  · intro row rest hdata
    cases row with
    | nil => simp [render_table, hhead, hdata]
    | cons p row' => simp [render_table, hhead, hdata]

/-- Witness for the amended C2 theorem: the empty response and a response
whose first row is the empty object. -/
theorem C2_render_fallback_amended_witness :
    render_table
      { data := [], schema := Value.null, cursor := none, freshness_state := none,
        realtime_state := none, extra := [] } = some "(no rows)"
    ∧ (render_table
        { data := [[], [("a", Value.num 1)]], schema := Value.null, cursor := none,
          freshness_state := none, realtime_state := none, extra := [] } = none ↔
        ([] : List (String × Value)) = []) := by
  constructor
  · exact (C2_render_fallback_amended
      { data := [], schema := Value.null, cursor := none, freshness_state := none,
        realtime_state := none, extra := [] } rfl).1 rfl
  · exact (C2_render_fallback_amended
      { data := [[], [("a", Value.num 1)]], schema := Value.null, cursor := none,
        freshness_state := none, realtime_state := none, extra := [] } rfl).2
      [] [[("a", Value.num 1)]] rfl

end Bt

namespace Bt

theorem updateWidths_length (ws : List Nat) (row : List String) :
    (updateWidths ws row).length = ws.length := by
  induction ws generalizing row with
  | nil => cases row <;> rfl
  | cons w ws ih =>
    cases row with
    | nil => rfl
    | cons cell cs => simp [updateWidths, ih]

theorem getD_updateWidths (ws : List Nat) (row : List String) (i : Nat)
    (hi : i < ws.length) (hlen : row.length = ws.length) :
    (updateWidths ws row).getD i 0 = max (ws.getD i 0) (strWidth (row.getD i "")) := by
  induction ws generalizing row i with
  | nil => simp at hi
  | cons w ws ih =>
    cases row with
    | nil => simp at hlen
    | cons cell cs =>
      cases i with
      | zero => simp [updateWidths]
      | succ j =>
        simp only [updateWidths, List.getD_cons_succ]
        exact ih cs j (by simpa using hi) (by simpa using hlen)

/-- Projecting the width fold of `build_table` to one column turns it into a
fold of `max` over that column's cells. -/
theorem computeWidths_foldl (rows : List (List String)) (ws : List Nat) (i : Nat)
    (hi : i < ws.length) (hrows : ∀ r ∈ rows, r.length = ws.length) :
    (rows.foldl updateWidths ws).getD i 0 =
      rows.foldl (fun m r => max m (strWidth (r.getD i ""))) (ws.getD i 0) := by
  induction rows generalizing ws with
  | nil => rfl
  | cons r rs ih =>
    simp only [List.foldl_cons]
    rw [ih (updateWidths ws r) (by rw [updateWidths_length]; exact hi)
        (fun r' hr' => by rw [updateWidths_length]; exact hrows r' (List.mem_cons_of_mem _ hr'))]
    rw [getD_updateWidths ws r i hi (hrows r (List.mem_cons_self _ _))]

/-- `pad_cell` always appends exactly `width − display_width(cell)` spaces
(zero when the cell already fills the column). -/
theorem pad_cell_eq (cell : String) (width : Nat) :
    pad_cell cell width = cell ++ String.mk (List.replicate (width - strWidth cell) ' ') := by
  unfold pad_cell
  by_cases h : width ≤ strWidth cell
  · rw [if_pos h]
    have h0 : width - strWidth cell = 0 := by omega
    rw [h0, show String.mk (List.replicate 0 ' ') = "" from rfl, String.append_empty]
  · rw [if_neg h]

theorem getD_map_strWidth (headers : List String) (i : Nat) (hi : i < headers.length) :
    (headers.map strWidth).getD i 0 = strWidth (headers.getD i "") := by
  induction headers generalizing i with
  | nil => simp at hi
  | cons h hs ih =>
    cases i with
    | zero => rfl
    | succ j => exact ih j (by simpa using hi)

/-- Claim C5: in the rendered table every column's width is the `max`-fold of
the header's display width and all its cells' display widths, where display
width is the Unicode east-asian-width-aware measure `strWidth` (not byte
length, not character count); every cell is right-padded with exactly
`width − display_width(cell)` ASCII spaces; and the `é` / `ab` rows under
header `name` render with the column exactly as wide as the widest entry in
display columns (`é` gets three spaces of padding, not two as a byte count
would give). -/
theorem C5_column_widths_and_padding :
    (∀ (headers : List String) (rows : List (List String)) (i : Nat),
        i < headers.length →
        (∀ r ∈ rows, r.length = headers.length) →
        (computeWidths headers rows).getD i 0 =
          rows.foldl (fun m r => max m (strWidth (r.getD i "")))
            (strWidth (headers.getD i "")))
    ∧ (∀ (cell : String) (width : Nat),
        pad_cell cell width = cell ++ String.mk (List.replicate (width - strWidth cell) ' '))
    ∧ build_table ["name"] [["é"], ["ab"]] =
        "+------+\n| name |\n+------+\n| é    |\n| ab   |\n+------+" := by
  refine ⟨?_, pad_cell_eq, by decide⟩
  intro headers rows i hi hrows
  unfold computeWidths
  rw [computeWidths_foldl rows (headers.map strWidth) i (by simpa using hi)
      (fun r hr => by rw [List.length_map]; exact hrows r hr)]
  rw [getD_map_strWidth headers i hi]

/-- Witness for C5 at the claim's own example. -/
theorem C5_column_widths_and_padding_witness :
    (computeWidths ["name"] [["é"], ["ab"]]).getD 0 0 =
      [["é"], ["ab"]].foldl (fun m r => max m (strWidth (r.getD 0 "")))
        (strWidth (["name"].getD 0 ""))
    ∧ pad_cell "é" 4 = "é" ++ String.mk (List.replicate (4 - strWidth "é") ' ') :=
  ⟨C5_column_widths_and_padding.1 ["name"] [["é"], ["ab"]] 0 (by decide) (by decide),
   C5_column_widths_and_padding.2.1 "é" 4⟩

/-- Claim C6 fails on the code: typing `é`, `é`, `a` (buffer of 5 bytes,
cursor 5, a valid boundary) and rendering with `area.width = 6` (a byte
budget of 4) snaps the window start from offset 1 down to 0, making the
visible window bytes `[0, 4)` = `éé`, yet reports cursor column 5 — outside
the returned window, whose byte length is 4 and display width 2.  The window
edges do land on character boundaries, but the returned cursor column is not
inside the window. -/
theorem C6_cursor_outside_window :
    ([EditorOp.insertChar 'é', EditorOp.insertChar 'é',
        EditorOp.insertChar 'a'].foldl applyOp (App.new false)).input = ['é', 'é', 'a']
    ∧ ([EditorOp.insertChar 'é', EditorOp.insertChar 'é',
        EditorOp.insertChar 'a'].foldl applyOp (App.new false)).cursor = 5
    ∧ isBoundary ['é', 'é', 'a'] 5 = true
    ∧ App.input_view
        ([EditorOp.insertChar 'é', EditorOp.insertChar 'é',
          EditorOp.insertChar 'a'].foldl applyOp (App.new false)) 6 = (['é', 'é'], 5)
    ∧ utf8Len ['é', 'é'] = 4
    ∧ (['é', 'é'].map charWidth).sum = 2
    ∧ ¬ (5 : Nat) ≤ 4 := by
  decide

end Bt

namespace Bt

/-- Claim C7: when the dispatched query fails, the key-event handler puts
`"Error: <description>"` in the output pane, sets the status line to
`"Error"`, and returns the continue (non-terminating) decision, for any
session state and modifiers. -/
theorem C7_dispatch_error_recovered (a : App) (ctrl alt : Bool)
    (dispatch : List Char → QueryResult) (e : String)
    (hne : trimChars a.input ≠ [])
    (herr : dispatch (trimChars a.input) = QueryResult.err e) :
    (handle_key_event a ⟨KeyCode.enter, ctrl, alt⟩ dispatch).1.output = "Error: " ++ e
    ∧ (handle_key_event a ⟨KeyCode.enter, ctrl, alt⟩ dispatch).1.status = "Error"
    ∧ (handle_key_event a ⟨KeyCode.enter, ctrl, alt⟩ dispatch).2 = false := by
  simp [handle_key_event, hne, herr, App.push_history, App.clear_input,
    trimChars_trimChars_ne_nil hne]

/-- Witness for C7: a failing dispatch on a one-character query. -/
theorem C7_dispatch_error_recovered_witness :
    (handle_key_event ((App.new false).insert_char 'x') ⟨KeyCode.enter, false, false⟩
        (fun _ => QueryResult.err "boom")).1.output = "Error: " ++ "boom"
    ∧ (handle_key_event ((App.new false).insert_char 'x') ⟨KeyCode.enter, false, false⟩
        (fun _ => QueryResult.err "boom")).1.status = "Error"
    ∧ (handle_key_event ((App.new false).insert_char 'x') ⟨KeyCode.enter, false, false⟩
        (fun _ => QueryResult.err "boom")).2 = false :=
  C7_dispatch_error_recovered ((App.new false).insert_char 'x') false false
    (fun _ => QueryResult.err "boom") "boom" (by decide) rfl

/-- Claim C8: in the idle state, control+C clears only the input buffer
(output and history untouched), updates the status line, and continues;
Esc and control+D terminate; Enter on a buffer that trims to empty is a
complete no-op returning the unchanged state (for every dispatch oracle, so
nothing is dispatched). -/
theorem C8_idle_key_dispositions (a : App) (dispatch : List Char → QueryResult)
    (ctrl alt calt : Bool) :
    ((handle_key_event a ⟨KeyCode.char 'c', true, calt⟩ dispatch).1.input = []
      ∧ (handle_key_event a ⟨KeyCode.char 'c', true, calt⟩ dispatch).1.cursor = 0
      ∧ (handle_key_event a ⟨KeyCode.char 'c', true, calt⟩ dispatch).1.output = a.output
      ∧ (handle_key_event a ⟨KeyCode.char 'c', true, calt⟩ dispatch).1.history = a.history
      ∧ (handle_key_event a ⟨KeyCode.char 'c', true, calt⟩ dispatch).1.status = "Cleared input"
      ∧ (handle_key_event a ⟨KeyCode.char 'c', true, calt⟩ dispatch).2 = false)
    ∧ handle_key_event a ⟨KeyCode.esc, ctrl, alt⟩ dispatch = (a, true)
    ∧ handle_key_event a ⟨KeyCode.char 'd', true, calt⟩ dispatch = (a, true)
    ∧ (trimChars a.input = [] →
        handle_key_event a ⟨KeyCode.enter, ctrl, alt⟩ dispatch = (a, false)) := by
  refine ⟨?_, ?_, ?_, ?_⟩
  · simp [handle_key_event, App.clear_input]
  · simp [handle_key_event]
  · simp [handle_key_event]
  · intro hempty
    simp [handle_key_event, hempty]

/-- Witness for C8 with a concrete dispatch oracle: Esc terminates from a
state with typed text, and Enter on the fresh (empty) session is a no-op. -/
theorem C8_idle_key_dispositions_witness :
    handle_key_event ((App.new false).insert_char 'x') ⟨KeyCode.esc, false, false⟩
        (fun _ => QueryResult.err "boom") = ((App.new false).insert_char 'x', true)
    ∧ handle_key_event (App.new false) ⟨KeyCode.enter, false, false⟩
        (fun _ => QueryResult.err "boom") = (App.new false, false) :=
  ⟨(C8_idle_key_dispositions ((App.new false).insert_char 'x')
      (fun _ => QueryResult.err "boom") false false false).2.1,
   (C8_idle_key_dispositions (App.new false) (fun _ => QueryResult.err "boom")
      false false false).2.2.2 (by decide)⟩

/-- Claim C10: after Enter on a buffer that is non-empty after trimming, the
trimmed query is pushed to history (with the duplicate-of-last suppression of
`push_history`) and the input is cleared — input empty, cursor 0, browsing
index reset — and the loop continues; the resulting history is the same for
every dispatch oracle, so failed queries enter history exactly like
successful ones. -/
theorem C10_enter_pushes_history_always (a : App) (ctrl alt : Bool)
    (dispatch : List Char → QueryResult)
    (hne : trimChars a.input ≠ []) :
    (handle_key_event a ⟨KeyCode.enter, ctrl, alt⟩ dispatch).1.history =
      (if a.history.getLast? = some (trimChars a.input) then a.history
       else a.history ++ [trimChars a.input])
    ∧ (handle_key_event a ⟨KeyCode.enter, ctrl, alt⟩ dispatch).1.input = []
    ∧ (handle_key_event a ⟨KeyCode.enter, ctrl, alt⟩ dispatch).1.cursor = 0
    ∧ (handle_key_event a ⟨KeyCode.enter, ctrl, alt⟩ dispatch).1.history_index = none
    ∧ (handle_key_event a ⟨KeyCode.enter, ctrl, alt⟩ dispatch).2 = false
    ∧ ∀ dispatch2 : List Char → QueryResult,
        (handle_key_event a ⟨KeyCode.enter, ctrl, alt⟩ dispatch2).1.history =
          (handle_key_event a ⟨KeyCode.enter, ctrl, alt⟩ dispatch).1.history := by
  have key : ∀ d : List Char → QueryResult,
      (handle_key_event a ⟨KeyCode.enter, ctrl, alt⟩ d).1.history =
        (if a.history.getLast? = some (trimChars a.input) then a.history
         else a.history ++ [trimChars a.input])
      ∧ (handle_key_event a ⟨KeyCode.enter, ctrl, alt⟩ d).1.input = []
      ∧ (handle_key_event a ⟨KeyCode.enter, ctrl, alt⟩ d).1.cursor = 0
      ∧ (handle_key_event a ⟨KeyCode.enter, ctrl, alt⟩ d).1.history_index = none
      ∧ (handle_key_event a ⟨KeyCode.enter, ctrl, alt⟩ d).2 = false := by
    intro d
    cases hdq : d (trimChars a.input) with
    | ok resp =>
      by_cases hl : a.history.getLast? = some (trimChars a.input)
      · simp [handle_key_event, hne, hdq, App.push_history, App.clear_input,
          trimChars_trimChars_ne_nil hne, hl]
      · simp [handle_key_event, hne, hdq, App.push_history, App.clear_input,
          trimChars_trimChars_ne_nil hne, hl]
    | err e =>
      by_cases hl : a.history.getLast? = some (trimChars a.input)
      · simp [handle_key_event, hne, hdq, App.push_history, App.clear_input,
          trimChars_trimChars_ne_nil hne, hl]
      · simp [handle_key_event, hne, hdq, App.push_history, App.clear_input,
          trimChars_trimChars_ne_nil hne, hl]
  exact ⟨(key dispatch).1, (key dispatch).2.1, (key dispatch).2.2.1,
    (key dispatch).2.2.2.1, (key dispatch).2.2.2.2,
    fun d2 => by rw [(key d2).1, (key dispatch).1]⟩

/-- Witness for C10: a failing dispatch still records the query. -/
theorem C10_enter_pushes_history_always_witness :
    (handle_key_event ((App.new false).insert_char 'q') ⟨KeyCode.enter, false, false⟩
        (fun _ => QueryResult.err "down")).1.history =
      (if (List.getLast? ([] : List (List Char))) = some (trimChars ['q']) then []
       else [] ++ [trimChars ['q']])
    ∧ (handle_key_event ((App.new false).insert_char 'q') ⟨KeyCode.enter, false, false⟩
        (fun _ => QueryResult.err "down")).1.input = [] :=
  ⟨(C10_enter_pushes_history_always ((App.new false).insert_char 'q') false false
      (fun _ => QueryResult.err "down") (by decide)).1,
   (C10_enter_pushes_history_always ((App.new false).insert_char 'q') false false
      (fun _ => QueryResult.err "down") (by decide)).2.1⟩

end Bt

namespace Bt

/-- Claim C9: decoding a JSON object payload into a `SqlResponse` and
re-encoding it preserves every top-level field the service sent — each key of
the payload is present in the re-encoded object, and every key outside the
five declared field names reappears with its value verbatim (it is carried
through the flattened `extra` map).  The `Nodup` hypothesis restricts the
statement to well-formed payloads (serde rejects duplicate fields). -/
theorem C9_roundtrip_preserves_fields (fields : List (String × Value)) (r : SqlResponse)
    (_hnd : (fields.map Prod.fst).Nodup)
    (hdec : decodeSqlResponse (Value.obj fields) = some r) :
    ∀ k v, (k, v) ∈ fields →
      (∃ v', (k, v') ∈ encodeSqlResponseFields r)
      ∧ (k ∉ knownFields → (k, v) ∈ encodeSqlResponseFields r) := by
  intro k v hmem
  simp only [decodeSqlResponse, Option.bind_eq_bind, Option.bind_eq_some,
    Option.some.injEq] at hdec
  obtain ⟨dataV, hd1, dataRows, hd2, schemaV, hd3, cursorV, hd4, freshV, hd5, rtV, hd6, hr⟩ :=
    hdec
  have hextra : r.extra = fields.filter (fun kv => !(knownFields.contains kv.1)) := by
    rw [← hr]
  have hsnd : k ∉ knownFields → (k, v) ∈ encodeSqlResponseFields r := by
    intro hknot
    have hfil : (k, v) ∈ fields.filter (fun kv => !(knownFields.contains kv.1)) := by
      refine List.mem_filter.mpr ⟨hmem, ?_⟩
      simpa using hknot
    unfold encodeSqlResponseFields
    exact List.mem_append_right _ (hextra ▸ hfil)
  refine ⟨?_, hsnd⟩
  by_cases hk : k ∈ knownFields
  · simp only [knownFields, List.mem_cons, List.not_mem_nil, or_false] at hk
    rcases hk with rfl | rfl | rfl | rfl | rfl
    · exact ⟨Value.arr (r.data.map Value.obj), by simp [encodeSqlResponseFields]⟩
    · exact ⟨r.schema, by simp [encodeSqlResponseFields]⟩
    · exact ⟨encodeOpt Value.str r.cursor, by simp [encodeSqlResponseFields]⟩
    · exact ⟨encodeOpt encodeFreshnessState r.freshness_state,
        by simp [encodeSqlResponseFields]⟩
    · exact ⟨encodeOpt encodeRealtimeState r.realtime_state,
        by simp [encodeSqlResponseFields]⟩
  · exact ⟨v, hsnd hk⟩

/-- Witness for C9: a payload with the unrecognized field `zz` survives the
decode/encode round trip verbatim. -/
theorem C9_roundtrip_preserves_fields_witness :
    (∃ v', ("zz", v') ∈ encodeSqlResponseFields
        { data := [], schema := Value.null, cursor := none, freshness_state := none,
          realtime_state := none, extra := [("zz", Value.str "keep")] })
    ∧ ("zz", Value.str "keep") ∈ encodeSqlResponseFields
        { data := [], schema := Value.null, cursor := none, freshness_state := none,
          realtime_state := none, extra := [("zz", Value.str "keep")] } := by
  have h := C9_roundtrip_preserves_fields
    [("data", Value.arr []), ("schema", Value.null), ("zz", Value.str "keep")]
    { data := [], schema := Value.null, cursor := none, freshness_state := none,
      realtime_state := none, extra := [("zz", Value.str "keep")] }
    (by decide) rfl "zz" (Value.str "keep")
    (List.mem_cons_of_mem _ (List.mem_cons_of_mem _ (List.mem_cons_self _ _)))
  exact ⟨h.1, h.2 (by decide)⟩

end Bt
